import Mathlib

/-!
Verification development for the optimus job/resource control plane.

The job sync engine (`job.Service`) is exercised through `TestService`
(src/unnamed/part_000); its implementation is not among the shown sources,
so the engine operations below are modelled from the specification and the
behaviour pinned down by that test file.  The BigQuery dataset adapter
(src/ext/datastore/bigquery/dataset_spec.go) and the RPC handlers
(src/api/handler/v1/runtime.go) are embedded directly from their sources.
-/

/-- Substring containment, stated over the underlying character lists. -/
def strContains (s pat : String) : Prop :=
  ∃ pre post : List Char, s.data = pre ++ pat.data ++ post

/-! ## Job sync engine data model -/

/-- Task section of a job spec (`models.JobSpecTask`): a task kind and the
derived priority. Config and window are irrelevant to the claims. -/
structure JobSpecTask where
  kind : String := ""
  priority : Int := 0
  deriving DecidableEq

/-- A job specification (`models.JobSpec`): name, version, owner, schedule
(start date as an optional abstract timestamp plus cron interval text),
task, and the names of the declared upstream jobs. -/
structure JobSpec where
  version : Nat := 0
  name : String := ""
  owner : String := ""
  startDate : Option Int := none
  interval : String := ""
  task : JobSpecTask := {}
  dependencies : List String := []
  deriving DecidableEq

/-- A compiled job (`models.Job`): artifact name plus opaque contents. -/
structure Job where
  name : String
  contents : String
  deriving DecidableEq

/-- Artifact store contents: compiled artifacts keyed by name. -/
abbrev ArtifactStore := List (String × String)

/-- Store operations performed by an engine call, recorded in order. -/
inductive StoreOp where
  | openArtifact : StoreOp
  | saveArtifact (name contents : String) : StoreOp
  | deleteArtifact (name : String) : StoreOp
  deriving DecidableEq

/-- Progress events emitted during a sync (`EventJobUpload`,
`EventJobRemoteDelete`), each carrying an optional error message. -/
inductive Event where
  | jobUpload (name : String) (err : Option String) : Event
  | jobRemoteDelete (name : String) (err : Option String) : Event
  deriving DecidableEq

/-- Modelled from the spec: the `Aggregated` error (the multi-error type
returned by `job.Service`, not under src).  It wraps an ordered list of
underlying error messages. -/
structure AggregatedError where
  errors : List String
  deriving DecidableEq

/-- Modelled from the spec: rendering of an `Aggregated` error — the count
prefixed as `N errors occurred:`, then one entry per line. -/
def joinLines : List String → String
  | [] => ""
  | [m] => m
  | m :: rest => m ++ "\n" ++ joinLines rest

/-- The full rendered message of an aggregated error. -/
def AggregatedError.render (a : AggregatedError) : String :=
  toString a.errors.length ++ " errors occurred:" ++ "\n" ++ joinLines a.errors

/-! ## Spec-modelled job sync engine operations

`job.Service` itself is not under src; the definitions below are modelled
from spec §4.1 (its `Sync`, `KeepOnly`, `Dump`, `Create` contracts) and from
the mock interactions fixed by `TestService`.  The external collaborators —
dependency resolver, priority resolver, compiler, metadata publisher and the
per-call stores — are parameters, exactly as they are mocks in the test. -/

/-- The dependency-resolution error messages collected over a whole batch:
every spec is attempted, failures are kept in input order. -/
def depErrors (depRes : JobSpec → Except String JobSpec) (specs : List JobSpec) :
    List String :=
  specs.filterMap fun s =>
    match depRes s with
    | .error e => some e
    | .ok _ => none

/-- The dependency-resolved specs of a batch (successes, in input order). -/
def resolveAll (depRes : JobSpec → Except String JobSpec) (specs : List JobSpec) :
    List JobSpec :=
  specs.filterMap fun s => (depRes s).toOption

/-- Embeds `ArtifactStore.Save`: replace the artifact of that name, or append. -/
def saveArtifactState (st : ArtifactStore) (n c : String) : ArtifactStore :=
  if st.any (fun p => p.1 = n) then
    st.map fun p => if p.1 = n then (n, c) else p
  else st ++ [(n, c)]

/-- Compile-and-save phase of `Sync` (spec §4.1 step 5): for each
prioritized spec, compile it; on success save the artifact and emit
`EventJobUpload` without error; on failure emit the event carrying the
error and collect it — the batch continues.  Returns the new store state,
the store-operation log, the events and the collected errors. -/
def compileSave (compile : JobSpec → Except String Job) (st : ArtifactStore) :
    List JobSpec → ArtifactStore × List StoreOp × List Event × List String
  | [] => (st, [], [], [])
  | s :: rest =>
    match compile s with
    | .ok j =>
      let r := compileSave compile (saveArtifactState st j.name j.contents) rest
      (r.1, .saveArtifact j.name j.contents :: r.2.1,
        .jobUpload s.name none :: r.2.2.1, r.2.2.2)
    | .error e =>
      let r := compileSave compile st rest
      (r.1, r.2.1, .jobUpload s.name (some e) :: r.2.2.1, e :: r.2.2.2)

/-- Orphan-removal phase of `Sync` (spec §4.1 step 6): every name in
`ArtifactStore.ListNames()` that is not a current spec name is deleted,
emitting `EventJobRemoteDelete` per deletion. -/
def orphanStep (specs : List JobSpec) (st : ArtifactStore) :
    ArtifactStore × List StoreOp × List Event :=
  let orphans := (st.map Prod.fst).filter fun n => ¬ specs.any fun s => s.name = n
  (st.filter fun p => specs.any fun s => s.name = p.1,
    orphans.map StoreOp.deleteArtifact,
    orphans.map fun n => Event.jobRemoteDelete n none)

/-- Modelled from the spec: `job.Service.Sync` (implementation not under
src; behaviour per spec §4.1 and the `TestService/Sync` cases).  Enumerates
the project specs, resolves dependencies for every spec with failures
batched into one aggregated error that aborts before compilation, resolves
priorities, opens the artifact store, compiles and saves each spec, deletes
orphans, optionally publishes metadata, and returns the aggregated error or
success. -/
def syncService (depRes : JobSpec → Except String JobSpec)
    (priRes : List JobSpec → Except String (List JobSpec))
    (compile : JobSpec → Except String Job)
    (meta : Option (List JobSpec → Option String))
    (specStore : List JobSpec) (artifacts : ArtifactStore) :
    Except AggregatedError Unit × ArtifactStore × List StoreOp × List Event :=
  let errs := depErrors depRes specStore
  if errs = [] then
    match priRes (resolveAll depRes specStore) with
    | .error e => (.error ⟨[e]⟩, artifacts, [], [])
    | .ok prioritized =>
      let r1 := compileSave compile artifacts prioritized
      let r2 := orphanStep specStore r1.1
      let metaErrs :=
        match meta with
        | none => []
        | some pub =>
          match pub prioritized with
          | none => []
          | some e => [e]
      let allErrs := r1.2.2.2 ++ metaErrs
      ((if allErrs = [] then .ok () else .error ⟨allErrs⟩), r2.1,
        StoreOp.openArtifact :: (r1.2.1 ++ r2.2.1), r1.2.2.1 ++ r2.2.2)
  else (.error ⟨errs⟩, artifacts, [], [])

/-- Modelled from the spec: `job.Service.KeepOnly` (implementation not
under src; behaviour per spec §4.1 and `TestService/KeepOnly`): deletes
from the spec store every spec whose name is not among the `toKeep` names,
returning the new store contents and the names passed to `Delete`. -/
def keepOnlyService (specStore : List JobSpec) (toKeep : List JobSpec) :
    List JobSpec × List String :=
  let keepNames := toKeep.map fun s => s.name
  ((specStore.filter fun s => keepNames.contains s.name),
    (specStore.filter fun s => !(keepNames.contains s.name)).map fun s => s.name)

/-- Modelled from the spec: `job.Service.Dump` (implementation not under
src; behaviour per spec §4.1 and `TestService/Dump`): resolves dependencies
and priorities over the whole project, compiles only the requested spec
(located by name) and returns the compiled job; the artifact store is never
touched, so the returned store-operation log is empty. -/
def dumpService (depRes : JobSpec → Except String JobSpec)
    (priRes : List JobSpec → Except String (List JobSpec))
    (compile : JobSpec → Except String Job)
    (specStore : List JobSpec) (requested : JobSpec) :
    Except AggregatedError Job × List StoreOp :=
  let errs := depErrors depRes specStore
  if errs = [] then
    match priRes (resolveAll depRes specStore) with
    | .error e => (.error ⟨[e]⟩, [])
    | .ok prioritized =>
      match prioritized.find? (fun s => s.name == requested.name) with
      | none => (.error ⟨["requested job not found"]⟩, [])
      | some s =>
        match compile s with
        | .error e => (.error ⟨[e]⟩, [])
        | .ok j => (.ok j, [])
  else (.error ⟨errs⟩, [])

/-- Errors a `Create` call can surface. -/
inductive CreateError where
  | validation (msg : String) : CreateError
  | store (msg : String) : CreateError
  deriving DecidableEq

/-- Modelled from the spec: `job.Service.Create` (implementation not under
src).  Spec §4.1 lists validation checks for the name (identifier regex),
the schedule interval (recognized cron expression) and the presence of the
start date; the identifier regex and the cron recognizer are not under src
either, so they are abstracted as the `nameOk` and `cronOk` parameters.
The fourth documented check — a non-empty task kind — is refuted by
`TestService/Create`, whose mocks require `Save` to be invoked with a spec
whose task section is the zero value and `Create` to return nil, so no
task-kind check is modelled.  On passing validation the service news a
spec repository for the project and persists the spec through `Save`,
returning `Save`'s error.  Returns the result together with the list of
specs saved. -/
def createService (nameOk cronOk : String → Bool)
    (save : JobSpec → Option String) (spec : JobSpec) :
    Option CreateError × List JobSpec :=
  if ¬ nameOk spec.name then
    (some (.validation "invalid job name"), [])
  else if ¬ cronOk spec.interval then
    (some (.validation "invalid schedule interval"), [])
  else if spec.startDate = none then
    (some (.validation "start date is required"), [])
  else ((save spec).map CreateError.store, [spec])

/-! ## Spec-modelled priority resolver

Spec §4.3: build a DAG over the intra-project dependencies of the batch,
fail on a cycle, and weight nodes by reverse topological order — a leaf
receives the base weight 10000 and every dependent sits strictly below its
dependencies, stepping by a fixed stride per level of longest dependency
path.  The implementation is not under src; the depth computation below is
modelled from those words, with fuel bounded by the batch size (sufficient
for any acyclic graph over the batch). -/

/-- A job as seen by the priority resolver: the name, the declared
dependency names, and the priority slot to be populated. -/
structure PJob where
  name : String
  dependencies : List String
  priority : Int := 0
  deriving DecidableEq

/-- The intra-batch dependency names of the spec called `n`: the declared
dependencies of the (first) batch member of that name, restricted to names
that belong to the batch (external and cross-project edges are ignored). -/
def depsOf (batch : List PJob) (n : String) : List String :=
  match batch.find? (fun j => j.name == n) with
  | none => []
  | some j => j.dependencies.filter fun d => batch.any fun x => x.name == d

/-- Length of the longest intra-batch dependency path out of `n`, computed
with explicit fuel; a node with no intra-batch dependencies has depth 0. -/
def depthFuel (batch : List PJob) : Nat → String → Nat
  | 0, _ => 0
  | f + 1, n =>
    (depsOf batch n).foldr (fun d acc => max (depthFuel batch f d + 1) acc) 0

/-- The priority assigned to the spec named `n`: the base weight 10000
minus a stride of 10 per level of dependency depth. -/
def priorityOf (batch : List PJob) (n : String) : Int :=
  10000 - 10 * (depthFuel batch batch.length n : Int)

/-- Modelled from the spec: `PriorityResolver.Resolve` — returns the batch
in input order with the priority slot populated. -/
def priorityResolve (batch : List PJob) : List PJob :=
  batch.map fun j => { j with priority := priorityOf batch j.name }

/-! ## BigQuery dataset adapter (src/ext/datastore/bigquery/dataset_spec.go)

The adapter's wire forms are embedded structurally: a YAML byte slice is
either a byte sequence that fails unmarshaling or a well-formed
`DatasetResourceSpec` document, and a protobuf byte slice is either
unparsable bytes or a `ResourceSpecification` message.  `structpb` number
values are modelled exactly (as integers); machine float rounding inside
`structpb` is outside the model. -/

/-- Embeds `BQDatasetMetadata`: description, default table expiration, labels
(excluded from both wire forms by the `-` tags) and location. -/
structure BQDatasetMetadata where
  description : String := ""
  defaultTableExpiration : Int := 0
  labels : List (String × String) := []
  location : String := ""
  deriving DecidableEq

/-- Embeds `BQDataset`: the internal specification of a BigQuery dataset. -/
structure BQDataset where
  project : String := ""
  dataset : String := ""
  metadata : BQDatasetMetadata := {}
  deriving DecidableEq

/-- The `Spec` payload of a `models.ResourceSpec`: Go's `interface{}` is
either nil, a `BQDataset`, or a value of some other type. -/
inductive SpecPayload where
  | empty : SpecPayload
  | bq (d : BQDataset) : SpecPayload
  | other : SpecPayload
  deriving DecidableEq

/-- The `Datastore` field of a `models.ResourceSpec`: nil or the BigQuery
datastore (`This`). -/
inductive DatastoreRef where
  | unset : DatastoreRef
  | bigquery : DatastoreRef
  deriving DecidableEq

/-- Embeds `models.ResourceSpec`. -/
structure ResourceSpec where
  version : Int := 0
  name : String := ""
  typ : String := ""
  datastore : DatastoreRef := .unset
  spec : SpecPayload := .empty
  assets : List (String × String) := []
  labels : List (String × String) := []
  deriving DecidableEq

/-- Embeds `DatasetResourceSpec`, the YAML document shape: version, name, type,
the metadata sub-object (without labels, excluded by the `yaml:"-"` tag)
and the top-level labels. -/
structure YamlMeta where
  description : String := ""
  tableExpiration : Int := 0
  location : String := ""
  deriving DecidableEq

structure YamlDatasetDoc where
  version : Int := 0
  name : String := ""
  typ : String := ""
  spec : YamlMeta := {}
  labels : List (String × String) := []
  deriving DecidableEq

/-- A YAML byte slice: either bytes `yaml.Unmarshal` rejects, or the bytes
of a `DatasetResourceSpec` document. -/
inductive YamlBytes where
  | malformed (raw : String) : YamlBytes
  | doc (d : YamlDatasetDoc) : YamlBytes
  deriving DecidableEq

/-- A `structpb.Value` relevant to this adapter: a string, a number, or
anything else.  The number is a float64 double; every number this adapter
writes is an integer-valued double (an int64 pushed through `float64`), so
it is carried as the exact integer the double represents — producers must
store only integers in the image of `roundFloat64`, the set of
float64-representable integers. -/
inductive PValue where
  | str (s : String) : PValue
  | num (n : Int) : PValue
  | otherValue : PValue
  deriving DecidableEq

/-- The `v1.ResourceSpecification` wire message.  `version` holds the
already-truncated int32 value. -/
structure ProtoResourceSpec where
  version : Int := 0
  name : String := ""
  datastore : String := ""
  typ : String := ""
  spec : Option (List (String × PValue)) := none
  assets : List (String × String) := []
  labels : List (String × String) := []
  deriving DecidableEq

/-- A protobuf byte slice: bytes `proto.Unmarshal` rejects, or the bytes
of a `ResourceSpecification` message. -/
inductive ProtoBytes where
  | malformed (raw : String) : ProtoBytes
  | msg (m : ProtoResourceSpec) : ProtoBytes
  deriving DecidableEq

/-- A character of Go's RE2 class `\w`: ASCII letters, digits, underscore. -/
def wordChar (c : Char) : Bool :=
  c.isAlphanum || c = '_'

/-- Split a character list at every dot. -/
def splitDot : List Char → List (List Char)
  | [] => [[]]
  | c :: rest =>
    match splitDot rest with
    | [] => [[]]
    | t :: ts => if c = '.' then [] :: t :: ts else (c :: t) :: ts

/-- Embeds `datasetNameParseRegex.FindStringSubmatch` for the anchored pattern
`([\w-]+)\.(\w+)`: since neither class matches a dot, the name must be
`project.dataset` with exactly one dot, a nonempty `[\w-]+` project token
and a nonempty `\w+` dataset token; returns the two capture groups. -/
def parseDatasetName (n : String) : Option (String × String) :=
  match splitDot n.data with
  | [p, d] =>
    if p ≠ [] && d ≠ [] && p.all (fun c => wordChar c || c = '-')
        && d.all wordChar then
      some (String.mk p, String.mk d)
    else none
  | _ => none

/-- Embeds `datasetSpecHandler.ToYaml`: a nil payload is replaced by the zero
`BQDataset`; a payload of any other type fails the cast; otherwise the
YAML document carries version, name, type, the metadata (labels dropped by
the `yaml:"-"` tag) and the top-level labels. -/
def toYaml (r : ResourceSpec) : Except String YamlBytes :=
  let payload := match r.spec with
    | .empty => SpecPayload.bq {}
    | p => p
  match payload with
  | .bq d =>
    .ok (.doc { version := r.version, name := r.name, typ := r.typ,
                spec := { description := d.metadata.description,
                          tableExpiration := d.metadata.defaultTableExpiration,
                          location := d.metadata.location },
                labels := r.labels })
  | _ => .error "failed to convert resource, malformed spec"

/-- Embeds `datasetSpecHandler.FromYaml`: an unmarshal failure returns the zero
`models.ResourceSpec` with a nil error (the error is discarded); otherwise
the name must parse as `project.dataset`, and the result carries the
document fields with `Datastore` set to `This`. -/
def fromYaml : YamlBytes → Except String ResourceSpec
  | .malformed _ => .ok {}
  | .doc y =>
    match parseDatasetName y.name with
    | none => .error ("invalid resource name " ++ y.name)
    | some (p, d) =>
      .ok { version := y.version, name := y.name, typ := y.typ,
            datastore := .bigquery,
            spec := .bq { project := p, dataset := d,
                          metadata := { description := y.spec.description,
                                        defaultTableExpiration := y.spec.tableExpiration,
                                        labels := [],
                                        location := y.spec.location } },
            assets := [], labels := y.labels }

/-- Go's `int32(v)` conversion on an arbitrary integer: truncation to the
signed 32-bit range. -/
def toInt32 (v : Int) : Int :=
  let m := v % 4294967296
  if m < 2147483648 then m else m - 4294967296

/-- Fuelled floor base-2 logarithm; 64 units of fuel cover every int64
magnitude. -/
def log2Fuel : Nat → Nat → Nat
  | 0, _ => 0
  | fuel + 1, n => if n ≤ 1 then 0 else log2Fuel fuel (n / 2) + 1

/-- IEEE-754 round-to-nearest-even of a natural number to the nearest
float64-representable integer: magnitudes up to 2^53 are exact; above, the
value is rounded to a multiple of 2^e keeping a 53-bit significand, ties
going to the even significand. -/
def roundFloat64Nat (u : Nat) : Nat :=
  if u ≤ 9007199254740992 then u
  else
    let e := log2Fuel 64 u - 52
    let q := u / 2 ^ e
    let r := u % 2 ^ e
    let half := 2 ^ (e - 1)
    if half < r ∨ (r = half ∧ q % 2 = 1) then (q + 1) * 2 ^ e else q * 2 ^ e

/-- Go's `float64(v)` conversion of an int64: IEEE-754 round-to-nearest-even
of the integer, losing integers whose magnitude exceeds 2^53. -/
def roundFloat64 (v : Int) : Int :=
  if v < 0 then -(roundFloat64Nat v.natAbs : Int) else (roundFloat64Nat v.natAbs : Int)

/-- Go's `int64(f)` conversion of an integer-valued double: exact within
the int64 range; out of range the conversion is implementation-specific in
Go and modelled as the amd64 indefinite value −2^63. -/
def float64ToInt64 (v : Int) : Int :=
  if -9223372036854775808 ≤ v ∧ v ≤ 9223372036854775807 then v
  else -9223372036854775808

/-- Embeds `structs.Map` of a `BQDatasetMetadata` under its struct tags
followed by `structpb.NewStruct`: the `omitempty` fields appear only when
nonzero, `Labels` is excluded by the `structs:"-"` tag, and the int64
expiration becomes a float64 number value (`roundFloat64`), losing
precision above 2^53. -/
def structsMap (m : BQDatasetMetadata) : List (String × PValue) :=
  (if m.description = "" then [] else [("description", PValue.str m.description)])
    ++ (if m.defaultTableExpiration = 0 then []
        else [("table_expiration", PValue.num (roundFloat64 m.defaultTableExpiration))])
    ++ (if m.location = "" then [] else [("location", PValue.str m.location)])

/-- Embeds `datasetSpecHandler.ToProtobuf`: the payload must be a `BQDataset`
(no nil replacement here); the message carries the int32-truncated
version, name, the literal datastore string, type, the structpb form of
the metadata, assets and labels. -/
def toProtobuf (r : ResourceSpec) : Except String ProtoBytes :=
  match r.spec with
  | .bq d =>
    .ok (.msg { version := toInt32 r.version, name := r.name,
                datastore := "bigquery", typ := r.typ,
                spec := some (structsMap d.metadata),
                assets := r.assets, labels := r.labels })
  | _ => .error "failed to convert resource, malformed spec"

/-- Embeds `Value.GetStringValue`: the string of a string value, else "". -/
def getStringValue : Option PValue → String
  | some (.str s) => s
  | _ => ""

/-- Embeds `Value.GetNumberValue`: the double held by a numeric value
(carried as the exact integer it represents), else 0.  The `int64` cast
the caller applies is `float64ToInt64`. -/
def getNumberValue : Option PValue → Int
  | some (.num n) => n
  | _ => 0

/-- Embeds `datasetSpecHandler.FromProtobuf`: an unmarshal failure is returned as
an error; otherwise the name must parse as `project.dataset`, the metadata
is rebuilt from the `description`, `location` and `table_expiration`
struct fields, and the result carries the message fields with `Datastore`
set to `This`. -/
def fromProtobuf : ProtoBytes → Except String ResourceSpec
  | .malformed raw => .error ("failed to unmarshal: " ++ raw)
  | .msg m =>
    match parseDatasetName m.name with
    | none => .error ("invalid resource name " ++ m.name)
    | some (p, d) =>
      let meta : BQDatasetMetadata :=
        match m.spec with
        | none => {}
        | some fields =>
          { description := getStringValue ((fields.find? (fun f => f.1 == "description")).map Prod.snd),
            defaultTableExpiration :=
              float64ToInt64
                (getNumberValue ((fields.find? (fun f => f.1 == "table_expiration")).map Prod.snd)),
            labels := [],
            location := getStringValue ((fields.find? (fun f => f.1 == "location")).map Prod.snd) }
      .ok { version := m.version, name := m.name, typ := m.typ,
            datastore := .bigquery,
            spec := .bq { project := p, dataset := d, metadata := meta },
            assets := m.assets, labels := m.labels }

/-- The recognized fields of a resource, per claim C4: version, name,
type, labels, and the metadata fields description, location and
table_expiration (the latter three only when the payload is a dataset). -/
def metadataOf (r : ResourceSpec) : Option (String × Int × String) :=
  match r.spec with
  | .bq d => some (d.metadata.description, d.metadata.defaultTableExpiration,
      d.metadata.location)
  | _ => none

/-- Equality of two resources on the recognized fields. -/
def recognizedEq (a b : ResourceSpec) : Prop :=
  a.version = b.version ∧ a.name = b.name ∧ a.typ = b.typ ∧
    a.labels = b.labels ∧ metadataOf a = metadataOf b

instance (a b : ResourceSpec) : Decidable (recognizedEq a b) := by
  unfold recognizedEq; infer_instance

/-! ## RPC handlers (src/api/handler/v1/runtime.go)

The handlers are embedded as functions of the results of their
collaborators (project repository, job service, proto adapter, window
preparation): each collaborator is a parameter returning `Except`, exactly
the seam the Go code works through. -/

/-- A gRPC status code relevant to these handlers. -/
inductive StatusCode where
  | internal : StatusCode
  | notFound : StatusCode
  | failedPrecondition : StatusCode
  deriving DecidableEq

/-- A `status.Error(code, msg)` value. -/
structure GrpcStatus where
  code : StatusCode
  msg : String
  deriving DecidableEq

/-- Embeds `models.ProjectSpec`. -/
structure ProjectSpec where
  name : String
  deriving DecidableEq

/-- A `pb.JobSpecification` produced by the proto adapter. -/
structure JobProto where
  name : String
  deriving DecidableEq

/-- The adapter loop of `ListJobSpecification`: convert each job spec to
its proto form, failing on the first adapter error with an `Internal`
status carrying the adapter's message prepended. -/
def adaptAllJobs (toProto : JobSpec → Except String JobProto) :
    List JobSpec → Except GrpcStatus (List JobProto)
  | [] => .ok []
  | s :: rest =>
    match toProto s with
    | .error e =>
      .error ⟨.internal, e ++ (": failed to parse job spec " ++ s.name)⟩
    | .ok p =>
      match adaptAllJobs toProto rest with
      | .error st => .error st
      | .ok ps => .ok (p :: ps)

/-- Embeds `RuntimeServiceServer.ListJobSpecification`: fetch the project, fetch
its job specs, adapt each to proto form; every failure becomes an
`Internal` status with the original error message prepended. -/
def listJobSpecification (projectName : String)
    (getProject : Except String ProjectSpec)
    (getAll : ProjectSpec → Except String (List JobSpec))
    (toProto : JobSpec → Except String JobProto) :
    Except GrpcStatus (List JobProto) :=
  match getProject with
  | .error e =>
    .error ⟨.internal, e ++ (": project " ++ projectName ++ " not found")⟩
  | .ok proj =>
    match getAll proj with
    | .error e =>
      .error ⟨.internal,
        e ++ (": failed to retrive jobs for project " ++ projectName)⟩
    | .ok specs => adaptAllJobs toProto specs

/-- The response of `DumpJobSpecification`. -/
structure DumpResponse where
  success : Bool
  content : String
  deriving DecidableEq

/-- Embeds `RuntimeServiceServer.DumpJobSpecification`: fetch the project, fetch
the requested job spec by name, dump it through the job service; every
failure becomes an `Internal` status with the original error message
prepended, and success returns the compiled contents. -/
def dumpJobSpecification (projectName jobName : String)
    (getProject : Except String ProjectSpec)
    (getByName : ProjectSpec → Except String JobSpec)
    (dump : ProjectSpec → JobSpec → Except String Job) :
    Except GrpcStatus DumpResponse :=
  match getProject with
  | .error e =>
    .error ⟨.internal, e ++ (": project " ++ projectName ++ " not found")⟩
  | .ok proj =>
    match getByName proj with
    | .error e =>
      .error ⟨.internal, e ++ (": job " ++ jobName ++ " not found")⟩
    | .ok spec =>
      match dump proj spec with
      | .error e =>
        .error ⟨.internal, e ++ (": failed to compile " ++ spec.name)⟩
      | .ok job => .ok ⟨true, job.contents⟩

/-- A time window handed back by `prepareWindow`, with its start and end
computed from the scheduled time (timestamps modelled as integers). -/
structure TimeWindow where
  getStart : Int → Int
  getEnd : Int → Int

/-- The response of `GetWindow`. -/
structure WindowResponse where
  start : Int
  stop : Int
  deriving DecidableEq

/-- Embeds `RuntimeServiceServer.GetWindow`: parse the scheduled time (`Internal`
on failure), reject any empty window parameter with `FailedPrecondition`,
then prepare the window and evaluate it at the scheduled time. -/
def getWindowHandler (scheduledAt : Except String Int)
    (size offset truncateTo : String)
    (prepareWindow : String → String → String → Except String TimeWindow) :
    Except GrpcStatus WindowResponse :=
  match scheduledAt with
  | .error e =>
    .error ⟨.internal, e ++ ": failed to parse schedule time"⟩
  | .ok t =>
    if size = "" || offset = "" || truncateTo = "" then
      .error ⟨.failedPrecondition,
        "window size, offset and truncate_to must be provided"⟩
    else
      match prepareWindow size offset truncateTo with
      | .error e => .error ⟨.internal, e⟩
      | .ok w => .ok ⟨w.getStart t, w.getEnd t⟩

deriving instance DecidableEq for Except

/-! ## Claims C9, C10: window preconditions and discarded YAML errors -/

/-- Claim C9: for every GetWindow request whose scheduledAt timestamp
parses, if any of the size, offset, or truncateTo parameters is the empty
string, the call fails with status code FailedPrecondition and returns no
window. -/
theorem getWindow_empty_param_failed_precondition
    (scheduledAt : Except String Int) (t : Int) (size offset truncateTo : String)
    (prepareWindow : String → String → String → Except String TimeWindow)
    (hts : scheduledAt = .ok t)
    (h : size = "" ∨ offset = "" ∨ truncateTo = "") :
    getWindowHandler scheduledAt size offset truncateTo prepareWindow
      = .error ⟨.failedPrecondition,
          "window size, offset and truncate_to must be provided"⟩ := by
  subst hts
  rcases h with h | h | h <;> simp [getWindowHandler, h]

/-- Witness for C9: an empty size parameter with a parsed timestamp. -/
theorem getWindow_empty_param_failed_precondition_witness :
    getWindowHandler (.ok 0) "" "0" "h" (fun _ _ _ => .error "unused")
      = .error ⟨.failedPrecondition,
          "window size, offset and truncate_to must be provided"⟩ :=
  getWindow_empty_param_failed_precondition (.ok 0) 0 "" "0" "h"
    (fun _ _ _ => .error "unused") rfl (Or.inl rfl)

/-- Claim C10: for every byte sequence that fails YAML unmarshaling, the
dataset adapter's FromYaml returns the zero-valued ResourceSpec together
with a nil error — the unmarshal error is discarded. -/
theorem fromYaml_malformed_discards_error (raw : String) :
    fromYaml (.malformed raw) = .ok ({} : ResourceSpec) := rfl

/-! ## Claim C7: Create validates name, cron and start, but not task kind -/

/-- An identifier recognizer accepting names of letters, digits, hyphens
and underscores (the test's name `test` passes it). -/
def identNameOk : String → Bool := fun n =>
  n ≠ "" && n.data.all (fun c => c.isAlphanum || c = '-' || c = '_')

/-- A cron recognizer accepting the descriptor forms used by the tests
(`@daily` passes it, as it must since `TestService/Create` reaches Save). -/
def cronOkEx : String → Bool := fun i => i == "@daily" || i == "@hourly"

/-- The spec submitted by `TestService/Create`: valid name `test`,
interval `@daily`, start date present — and a zero task section, so its
task kind is empty. -/
def testCreateSpec : JobSpec :=
  { version := 1, name := "test", owner := "optimus",
    startDate := some 1606867200, interval := "@daily", task := { kind := "" } }

/-- Counterexample to C7 as stated: per `TestService/Create`, a spec that
passes the name, interval and start-date checks but has an empty task kind
is persisted — `Save` is invoked with it and `Create` returns nil — so no
`ValidationError` arises from the empty task kind the claim says is
checked. -/
theorem createService_saves_empty_task_kind_without_validation_error :
    createService identNameOk cronOkEx (fun _ => none) testCreateSpec
      = (none, [testCreateSpec])
    ∧ testCreateSpec.task.kind = "" := by
  exact ⟨by decide, rfl⟩

/-- Claim C7 (amended): Create validates the submitted spec before
persisting it — the name against the identifier recognizer, the schedule
interval against the cron recognizer, and the presence of the start date —
returning a `ValidationError` and saving nothing when any of these fails;
it does not check the task kind.  When the three checks pass it persists
exactly the submitted spec and returns an error if and only if the store's
`Save` fails, in which case the error is the store error, never a
validation error. -/
theorem createService_error_iff_save_fails
    (nameOk cronOk : String → Bool) (save : JobSpec → Option String)
    (spec : JobSpec) :
    ((nameOk spec.name = false ∨ cronOk spec.interval = false ∨
        spec.startDate = none) →
      (∃ m, (createService nameOk cronOk save spec).1 = some (.validation m))
        ∧ (createService nameOk cronOk save spec).2 = [])
    ∧ (nameOk spec.name = true → cronOk spec.interval = true →
        ∀ t, spec.startDate = some t →
      (createService nameOk cronOk save spec).2 = [spec]
      ∧ ((createService nameOk cronOk save spec).1 = none ↔ save spec = none)
      ∧ (∀ e, save spec = some e →
          (createService nameOk cronOk save spec).1 = some (.store e))
      ∧ (∀ m, (createService nameOk cronOk save spec).1
          ≠ some (.validation m))) := by
  constructor
  · intro h
    rcases h with h | h | h
    · simp [createService, h]
    · by_cases hn : nameOk spec.name <;> simp [createService, hn, h]
    · by_cases hn : nameOk spec.name <;> by_cases hc : cronOk spec.interval <;>
        simp [createService, hn, hc, h]
  · intro hn hc t ht
    cases hsv : save spec <;>
      simp [createService, hn, hc, ht, hsv]

/-- Witness for C7 (amended): a failing Save on the validated
`TestService/Create` spec surfaces as a store error. -/
theorem createService_error_iff_save_fails_witness :
    (createService identNameOk cronOkEx (fun _ => some "unknown error")
        testCreateSpec).1 = some (.store "unknown error") :=
  ((createService_error_iff_save_fails identNameOk cronOkEx
      (fun _ => some "unknown error") testCreateSpec).2
    (by decide) (by decide) 1606867200 (by rfl)).2.2.1 "unknown error" rfl

/-! ## Claim C8: RPC error mapping -/

/-- Helper: every error produced by the proto-adapter loop of
`ListJobSpecification` is an Internal status whose message starts with the
adapter's error for some spec of the list. -/
theorem adaptAllJobs_error_internal (toProto : JobSpec → Except String JobProto) :
    ∀ (l : List JobSpec) (st : GrpcStatus), adaptAllJobs toProto l = .error st →
      st.code = .internal ∧ ∃ s ∈ l, ∃ e, toProto s = .error e ∧
        st.msg = e ++ (": failed to parse job spec " ++ s.name) := by
  intro l
  induction l with
  | nil => intro st h; simp [adaptAllJobs] at h
  | cons s rest ih =>
    intro st h
    unfold adaptAllJobs at h
    cases hs : toProto s with
    | error e =>
      rw [hs] at h
      dsimp only at h
      cases h
      exact ⟨rfl, s, List.mem_cons_self s rest, e, hs, rfl⟩
    | ok p =>
      rw [hs] at h
      dsimp only at h
      cases hrest : adaptAllJobs toProto rest with
      | error st₁ =>
        rw [hrest] at h
        dsimp only at h
        cases h
        obtain ⟨hcode, s₁, hs₁, e, he, hmsg⟩ := ih _ hrest
        exact ⟨hcode, s₁, List.mem_cons_of_mem s hs₁, e, he, hmsg⟩
      | ok ps => rw [hrest] at h; simp at h

/-- Counterexample to C8 as stated: an unknown-project error ("record not
found") surfacing through `DumpJobSpecification` is mapped to `Internal`,
not to `NotFound` as the claim requires for unknown-spec errors. -/
theorem dump_project_not_found_maps_to_internal :
    dumpJobSpecification "proj" "test" (.error "record not found")
        (fun _ => .ok {}) (fun _ _ => .ok ⟨"test", "come string"⟩)
      = .error ⟨.internal, "record not found: project proj not found"⟩
    ∧ StatusCode.internal ≠ StatusCode.notFound := by
  exact ⟨rfl, by decide⟩

/-- Claim C8 (amended): every error surfaced by the ListJobSpecification
and DumpJobSpecification handlers is mapped to a structured status with
code Internal — never NotFound or FailedPrecondition — and with the
original error message of the failing collaborator prepended to the status
message. -/
theorem rpc_errors_mapped_to_internal (projectName jobName : String)
    (getProject : Except String ProjectSpec)
    (getAll : ProjectSpec → Except String (List JobSpec))
    (toProto : JobSpec → Except String JobProto)
    (getByName : ProjectSpec → Except String JobSpec)
    (dump : ProjectSpec → JobSpec → Except String Job) :
    (∀ st, listJobSpecification projectName getProject getAll toProto = .error st →
      st.code = .internal ∧ ∃ e rest, st.msg = e ++ rest ∧
        (getProject = .error e ∨ ∃ p, getProject = .ok p ∧
          (getAll p = .error e ∨ ∃ l, getAll p = .ok l ∧
            ∃ s ∈ l, toProto s = .error e)))
    ∧ (∀ st, dumpJobSpecification projectName jobName getProject getByName dump
          = .error st →
      st.code = .internal ∧ ∃ e rest, st.msg = e ++ rest ∧
        (getProject = .error e ∨ ∃ p, getProject = .ok p ∧
          (getByName p = .error e ∨ ∃ s, getByName p = .ok s ∧
            dump p s = .error e))) := by
  constructor
  · intro st h
    unfold listJobSpecification at h
    cases hgp : getProject with
    | error e =>
      rw [hgp] at h
      dsimp only at h
      cases h
      exact ⟨rfl, e, _, rfl, Or.inl rfl⟩
    | ok p =>
      rw [hgp] at h
      dsimp only at h
      cases hga : getAll p with
      | error e =>
        rw [hga] at h
        dsimp only at h
        cases h
        exact ⟨rfl, e, _, rfl, Or.inr ⟨p, rfl, Or.inl hga⟩⟩
      | ok l =>
        rw [hga] at h
        dsimp only at h
        obtain ⟨hcode, s, hs, e, he, hmsg⟩ := adaptAllJobs_error_internal toProto l st h
        exact ⟨hcode, e, _, hmsg, Or.inr ⟨p, rfl, Or.inr ⟨l, hga, s, hs, he⟩⟩⟩
  · intro st h
    unfold dumpJobSpecification at h
    cases hgp : getProject with
    | error e =>
      rw [hgp] at h
      dsimp only at h
      cases h
      exact ⟨rfl, e, _, rfl, Or.inl rfl⟩
    | ok p =>
      rw [hgp] at h
      dsimp only at h
      cases hgj : getByName p with
      | error e =>
        rw [hgj] at h
        dsimp only at h
        cases h
        exact ⟨rfl, e, _, rfl, Or.inr ⟨p, rfl, Or.inl hgj⟩⟩
      | ok s =>
        rw [hgj] at h
        dsimp only at h
        cases hdf : dump p s with
        | error e =>
          rw [hdf] at h
          dsimp only at h
          cases h
          exact ⟨rfl, e, _, rfl, Or.inr ⟨p, rfl, Or.inr ⟨s, hgj, hdf⟩⟩⟩
        | ok j => rw [hdf] at h; simp at h

/-- Witness for C8 (amended): a failing job lookup in
`DumpJobSpecification` produces a status whose code is Internal. -/
theorem rpc_errors_mapped_to_internal_witness :
    (⟨StatusCode.internal, "no such job: job test not found"⟩ : GrpcStatus).code
      = StatusCode.internal :=
  ((rpc_errors_mapped_to_internal "proj" "test" (.ok ⟨"proj"⟩)
      (fun _ => .ok []) (fun _ => .ok ⟨"x"⟩)
      (fun _ => .error "no such job")
      (fun _ _ => .ok ⟨"test", "c"⟩)).2
    ⟨.internal, "no such job: job test not found"⟩ rfl).1

/-! ## Claim C5: KeepOnly deletes exactly the unkept specs -/

/-- Bridge between `List.contains` and list membership for name lists. -/
theorem contains_name_iff (l : List String) (a : String) :
    l.contains a = true ↔ a ∈ l := by
  simp [List.contains]

/-- Claim C5: for every project state and every toKeep list, KeepOnly
deletes from the SpecStore exactly those specs whose names do not appear
among the names in toKeep, invoking Delete once per such spec, and leaves
every spec whose name is in toKeep untouched. -/
theorem keepOnly_deletes_exactly_unkept (specStore toKeep : List JobSpec)
    (hnodup : (specStore.map (fun s => s.name)).Nodup) :
    (∀ s ∈ specStore, s.name ∈ toKeep.map (fun x => x.name) →
      s ∈ (keepOnlyService specStore toKeep).1 ∧
        s.name ∉ (keepOnlyService specStore toKeep).2)
    ∧ (∀ s ∈ specStore, s.name ∉ toKeep.map (fun x => x.name) →
      s ∉ (keepOnlyService specStore toKeep).1 ∧
        (keepOnlyService specStore toKeep).2.count s.name = 1)
    ∧ (∀ n ∈ (keepOnlyService specStore toKeep).2,
      n ∉ toKeep.map (fun x => x.name) ∧ ∃ s ∈ specStore, s.name = n) := by
  have e1 : (keepOnlyService specStore toKeep).1
      = specStore.filter
          (fun s => (toKeep.map (fun x => x.name)).contains s.name) := rfl
  have e2 : (keepOnlyService specStore toKeep).2
      = (specStore.filter
          (fun s => !((toKeep.map (fun x => x.name)).contains s.name))).map
            (fun s => s.name) := rfl
  refine ⟨?_, ?_, ?_⟩
  · intro s hs hkeep
    constructor
    · rw [e1]
      exact List.mem_filter.mpr ⟨hs, (contains_name_iff _ _).mpr hkeep⟩
    · rw [e2]
      intro hmem
      obtain ⟨s₁, hs₁, hname⟩ := List.mem_map.mp hmem
      have hns₁ := (List.mem_filter.mp hs₁).2
      rw [Bool.not_eq_true', ← Bool.not_eq_true] at hns₁
      rw [hname] at hns₁
      exact hns₁ ((contains_name_iff _ _).mpr hkeep)
  · intro s hs hkeep
    constructor
    · rw [e1]
      intro hmem
      exact hkeep ((contains_name_iff _ _).mp (List.mem_filter.mp hmem).2)
    · rw [e2]
      have hmem : s.name ∈ (specStore.filter
          (fun s => !((toKeep.map (fun x => x.name)).contains s.name))).map
            (fun s => s.name) := by
        refine List.mem_map.mpr ⟨s, List.mem_filter.mpr ⟨hs, ?_⟩, rfl⟩
        rw [Bool.not_eq_true', ← Bool.not_eq_true]
        exact fun hc => hkeep ((contains_name_iff _ _).mp hc)
      have hsub :
          ((specStore.filter
              (fun s => !((toKeep.map (fun x => x.name)).contains s.name))).map
            (fun s => s.name)).Sublist (specStore.map (fun s => s.name)) :=
        (List.filter_sublist specStore).map _
      exact List.count_eq_one_of_mem (hsub.nodup hnodup) hmem
  · intro n hn
    rw [e2] at hn
    obtain ⟨s, hs, hname⟩ := List.mem_map.mp hn
    have hflt := List.mem_filter.mp hs
    refine ⟨?_, s, hflt.1, hname⟩
    intro hkeep
    have := hflt.2
    rw [Bool.not_eq_true', ← Bool.not_eq_true] at this
    rw [hname] at this
    exact this ((contains_name_iff _ _).mpr hkeep)

/-- Witness for C5: the `TestService/KeepOnly` scenario — specs `test-1`
and `test-2` with only `test-2` kept: `Delete(test-1)` happens exactly
once and `test-2` remains. -/
theorem keepOnly_deletes_exactly_unkept_witness :
    (keepOnlyService
        [{ name := "test-1" }, { name := "test-2" }]
        [{ name := "test-2" }]).2.count "test-1" = 1
    ∧ ({ name := "test-2" } : JobSpec) ∈
      (keepOnlyService
        [{ name := "test-1" }, { name := "test-2" }]
        [{ name := "test-2" }]).1 := by
  have h := keepOnly_deletes_exactly_unkept
    [{ name := "test-1" }, { name := "test-2" }]
    [{ name := "test-2" }] (by decide)
  exact ⟨(h.2.1 { name := "test-1" } (by simp) (by simp)).2,
    (h.1 { name := "test-2" } (by simp) (by simp)).1⟩

/-! ## Claim C1: Sync batches dependency-resolution failures -/

/-- Helper: a failing spec's message lands in the batch's error list. -/
theorem mem_depErrors_of_error {depRes : JobSpec → Except String JobSpec}
    {specs : List JobSpec} {s : JobSpec} {e : String}
    (hs : s ∈ specs) (he : depRes s = .error e) :
    e ∈ depErrors depRes specs := by
  refine List.mem_filterMap.mpr ⟨s, hs, ?_⟩
  rw [he]

/-- Helper: the batch's error list has one entry per failing spec. -/
theorem depErrors_length (depRes : JobSpec → Except String JobSpec) :
    ∀ specs : List JobSpec,
      (depErrors depRes specs).length
        = (specs.filter fun s => !(depRes s).isOk).length := by
  intro specs
  induction specs with
  | nil => rfl
  | cons s rest ih =>
    cases hs : depRes s with
    | error e =>
      simp [depErrors, List.filterMap_cons, List.filter_cons, hs,
        Except.isOk, Except.toBool] at ih ⊢
      omega
    | ok v =>
      simp [depErrors, List.filterMap_cons, List.filter_cons, hs,
        Except.isOk, Except.toBool] at ih ⊢
      omega

/-- Helper: every listed message is contained in the joined lines. -/
theorem joinLines_contains {msgs : List String} {m : String} (hm : m ∈ msgs) :
    strContains (joinLines msgs) m := by
  induction msgs with
  | nil => cases hm
  | cons m₁ rest ih =>
    cases rest with
    | nil =>
      rcases List.mem_singleton.mp hm with rfl
      exact ⟨[], [], by simp [joinLines]⟩
    | cons m₂ rest₂ =>
      rcases List.mem_cons.mp hm with rfl | hm₂
      · exact ⟨[], ("\n" ++ joinLines (m₂ :: rest₂)).data,
          by simp [joinLines, String.data_append]⟩
      · obtain ⟨pre, post, hdata⟩ := ih hm₂
        refine ⟨(m₁ ++ "\n").data ++ pre, post, ?_⟩
        show (m₁ ++ "\n" ++ joinLines (m₂ :: rest₂)).data = _
        simp [String.data_append, hdata]

/-- Helper: the rendered aggregated error contains its count header. -/
theorem render_contains_count (a : AggregatedError) :
    strContains a.render (toString a.errors.length ++ " errors occurred:") := by
  refine ⟨[], ("\n" ++ joinLines a.errors).data, ?_⟩
  show (toString a.errors.length ++ " errors occurred:" ++ "\n"
    ++ joinLines a.errors).data = _
  simp [String.data_append]

/-- Helper: the rendered aggregated error contains every listed message. -/
theorem render_contains_mem {a : AggregatedError} {m : String}
    (hm : m ∈ a.errors) : strContains a.render m := by
  obtain ⟨pre, post, hdata⟩ := joinLines_contains hm
  refine ⟨(toString a.errors.length ++ " errors occurred:" ++ "\n").data ++ pre,
    post, ?_⟩
  show (toString a.errors.length ++ " errors occurred:" ++ "\n"
    ++ joinLines a.errors).data = _
  simp [String.data_append, hdata]

/-- Claim C1: if any spec of the project fails dependency resolution, Sync
attempts resolution for every spec, returns an aggregated error carrying
one message per failing spec whose rendering contains `N errors occurred:`
(N the number of failures) and each failing message, and aborts before
compilation: the artifact store state is unchanged and no store operation
— not even an open — is performed. -/
theorem sync_batches_dependency_errors
    (depRes : JobSpec → Except String JobSpec)
    (priRes : List JobSpec → Except String (List JobSpec))
    (compile : JobSpec → Except String Job)
    (meta : Option (List JobSpec → Option String))
    (specStore : List JobSpec) (artifacts : ArtifactStore)
    (h : ∃ s ∈ specStore, ∃ e, depRes s = .error e) :
    syncService depRes priRes compile meta specStore artifacts
        = (.error ⟨depErrors depRes specStore⟩, artifacts, [], [])
    ∧ (∀ s ∈ specStore, ∀ e, depRes s = .error e →
        e ∈ depErrors depRes specStore)
    ∧ (depErrors depRes specStore).length
        = (specStore.filter fun s => !(depRes s).isOk).length
    ∧ strContains (AggregatedError.render ⟨depErrors depRes specStore⟩)
        (toString (depErrors depRes specStore).length ++ " errors occurred:")
    ∧ (∀ m ∈ depErrors depRes specStore,
        strContains (AggregatedError.render ⟨depErrors depRes specStore⟩) m) := by
  obtain ⟨s, hs, e, he⟩ := h
  have hne : depErrors depRes specStore ≠ [] := by
    intro h0
    have := mem_depErrors_of_error hs he
    rw [h0] at this
    cases this
  refine ⟨?_, ?_, depErrors_length depRes specStore,
    render_contains_count ⟨depErrors depRes specStore⟩,
    fun m hm => render_contains_mem hm⟩
  · simp only [syncService]
    rw [if_neg hne]
  · intro s₁ hs₁ e₁ he₁
    exact mem_depErrors_of_error hs₁ he₁

/-- Witness for C1: the `TestService/Sync` batched-failure scenario — two
specs whose resolutions fail with `error test` and `error test-2`. -/
theorem sync_batches_dependency_errors_witness :
    syncService (fun s => .error ("error " ++ s.name))
        (fun l => .ok l) (fun s => .ok ⟨s.name, ""⟩) none
        [{ name := "test" }, { name := "test-2" }] []
      = (.error ⟨["error test", "error test-2"]⟩, [], [], [])
    ∧ strContains
        (AggregatedError.render ⟨["error test", "error test-2"]⟩)
        "2 errors occurred:" := by
  have h := sync_batches_dependency_errors (fun s => .error ("error " ++ s.name))
    (fun l => .ok l) (fun s => .ok ⟨s.name, ""⟩) none
    [{ name := "test" }, { name := "test-2" }] []
    ⟨{ name := "test" }, by simp, "error test", rfl⟩
  exact ⟨h.1, h.2.2.2.1⟩

/-! ## Claim C6: Dump compiles the requested spec and writes nothing -/

/-- Claim C6: when dependency resolution succeeds for the whole project,
priority resolution succeeds, the requested spec is found among the
prioritized specs and its compilation succeeds, Dump returns exactly the
compiled job produced by the Compiler for that spec, and its
store-operation log is empty: the artifact store's Save and Delete are
never invoked during the call. -/
theorem dump_returns_compiled_requested_without_writes
    (depRes : JobSpec → Except String JobSpec)
    (priRes : List JobSpec → Except String (List JobSpec))
    (compile : JobSpec → Except String Job)
    (specStore : List JobSpec) (requested : JobSpec)
    (prioritized : List JobSpec) (s : JobSpec) (j : Job)
    (herrs : depErrors depRes specStore = [])
    (hpri : priRes (resolveAll depRes specStore) = .ok prioritized)
    (hfind : prioritized.find? (fun x => x.name == requested.name) = some s)
    (hcomp : compile s = .ok j) :
    dumpService depRes priRes compile specStore requested = (.ok j, []) := by
  simp only [dumpService]
  rw [if_pos herrs, hpri]
  dsimp only
  rw [hfind]
  dsimp only
  rw [hcomp]

/-- Witness for C6: the `TestService/Dump` scenario — one spec `test`
compiling to contents `come string`; Dump returns it with an empty
operation log. -/
theorem dump_returns_compiled_requested_without_writes_witness :
    dumpService (fun s => .ok s)
        (fun l => .ok (l.map fun x =>
          { x with task := { x.task with priority := 10000 } }))
        (fun s => .ok ⟨s.name, "come string"⟩)
        [{ name := "test" }] { name := "test" }
      = (.ok ⟨"test", "come string"⟩, []) :=
  dump_returns_compiled_requested_without_writes
    (fun s => .ok s)
    (fun l => .ok (l.map fun x =>
      { x with task := { x.task with priority := 10000 } }))
    (fun s => .ok ⟨s.name, "come string"⟩)
    [{ name := "test" }] { name := "test" }
    [{ name := "test", task := { priority := 10000 } }]
    { name := "test", task := { priority := 10000 } }
    ⟨"test", "come string"⟩ rfl (by rfl) (by decide) rfl

/-! ## Claim C2: successful Sync deletes exactly the orphans -/

/-- Helper: saving an artifact either rewrites an existing name in place
or appends the new name. -/
theorem saveArtifactState_map_fst (st : ArtifactStore) (n c : String) :
    (saveArtifactState st n c).map Prod.fst
      = if (st.any fun p => p.1 = n) = true then st.map Prod.fst
        else st.map Prod.fst ++ [n] := by
  unfold saveArtifactState
  by_cases hany : (st.any fun p => p.1 = n) = true
  · rw [if_pos hany, if_pos hany, List.map_map]
    apply List.map_congr_left
    intro p hp
    by_cases hpn : p.1 = n
    · simp [hpn]
    · simp [hpn]
  · rw [if_neg hany, if_neg hany, List.map_append]
    rfl

/-- Helper: membership in the names after a save. -/
theorem mem_map_fst_saveArtifactState (st : ArtifactStore) (n c n' : String) :
    n' ∈ (saveArtifactState st n c).map Prod.fst ↔
      n' ∈ st.map Prod.fst ∨ n' = n := by
  rw [saveArtifactState_map_fst]
  by_cases hany : (st.any fun p => p.1 = n) = true
  · rw [if_pos hany]
    constructor
    · exact Or.inl
    · rintro (h | rfl)
      · exact h
      · rw [List.any_eq_true] at hany
        obtain ⟨p, hp, hpe⟩ := hany
        simp only [decide_eq_true_eq] at hpe
        exact hpe ▸ List.mem_map.mpr ⟨p, hp, rfl⟩
  · rw [if_neg hany]
    simp

/-- Helper: the artifact names present after the compile-save phase are the
initial names plus the names of the successfully compiled jobs. -/
theorem compileSave_mem_names (compile : JobSpec → Except String Job) :
    ∀ (l : List JobSpec) (st : ArtifactStore) (n : String),
      n ∈ (compileSave compile st l).1.map Prod.fst ↔
        n ∈ st.map Prod.fst ∨ ∃ s ∈ l, ∃ j, compile s = .ok j ∧ j.name = n := by
  intro l
  induction l with
  | nil => intro st n; simp [compileSave]
  | cons s rest ih =>
    intro st n
    cases hs : compile s with
    | ok j =>
      simp only [compileSave, hs]
      rw [ih]
      rw [mem_map_fst_saveArtifactState]
      simp only [List.mem_cons, hs]
      constructor
      · rintro ((h | rfl) | ⟨s₁, hs₁, j₁, hj₁, hn₁⟩)
        · exact Or.inl h
        · exact Or.inr ⟨s, Or.inl rfl, j, hs, rfl⟩
        · exact Or.inr ⟨s₁, Or.inr hs₁, j₁, hj₁, hn₁⟩
      · rintro (h | ⟨s₁, (rfl | hs₁), j₁, hj₁, hn₁⟩)
        · exact Or.inl (Or.inl h)
        · rw [hs] at hj₁
          cases hj₁
          exact Or.inl (Or.inr hn₁.symm)
        · exact Or.inr ⟨s₁, hs₁, j₁, hj₁, hn₁⟩
    | error e =>
      simp only [compileSave, hs]
      rw [ih]
      simp only [List.mem_cons, hs]
      constructor
      · rintro (h | ⟨s₁, hs₁, j₁, hj₁, hn₁⟩)
        · exact Or.inl h
        · exact Or.inr ⟨s₁, Or.inr hs₁, j₁, hj₁, hn₁⟩
      · rintro (h | ⟨s₁, (rfl | hs₁), j₁, hj₁, hn₁⟩)
        · exact Or.inl h
        · rw [hs] at hj₁; cases hj₁
        · exact Or.inr ⟨s₁, hs₁, j₁, hj₁, hn₁⟩

/-- Helper: when the compile-save phase collects no error, every spec of
the batch compiled and its artifact save is in the operation log. -/
theorem compileSave_errors_nil (compile : JobSpec → Except String Job) :
    ∀ (l : List JobSpec) (st : ArtifactStore),
      (compileSave compile st l).2.2.2 = [] →
      ∀ s ∈ l, ∃ j, compile s = .ok j ∧
        StoreOp.saveArtifact j.name j.contents ∈ (compileSave compile st l).2.1 := by
  intro l
  induction l with
  | nil => intro st _ s hs; cases hs
  | cons s rest ih =>
    intro st h s₁ hs₁
    cases hcs : compile s with
    | error e => simp only [compileSave, hcs] at h; cases h
    | ok j =>
      simp only [compileSave, hcs] at h ⊢
      rcases List.mem_cons.mp hs₁ with rfl | hmem
      · exact ⟨j, hcs, List.mem_cons_self _ _⟩
      · obtain ⟨j₁, hj₁, hmem₁⟩ :=
          ih (saveArtifactState st j.name j.contents) h s₁ hmem
        exact ⟨j₁, hj₁, List.mem_cons_of_mem _ hmem₁⟩

/-- Helper: every operation the compile-save phase logs is the save of a
successfully compiled job of the batch (never a delete). -/
theorem compileSave_log_saves (compile : JobSpec → Except String Job) :
    ∀ (l : List JobSpec) (st : ArtifactStore) (op : StoreOp),
      op ∈ (compileSave compile st l).2.1 →
      ∃ s ∈ l, ∃ j, compile s = .ok j ∧
        op = .saveArtifact j.name j.contents := by
  intro l
  induction l with
  | nil => intro st op h; simp [compileSave] at h
  | cons s rest ih =>
    intro st op h
    cases hcs : compile s with
    | error e =>
      simp only [compileSave, hcs] at h
      obtain ⟨s₁, hs₁, j₁, hj₁, hop⟩ := ih st op h
      exact ⟨s₁, List.mem_cons_of_mem s hs₁, j₁, hj₁, hop⟩
    | ok j =>
      simp only [compileSave, hcs] at h
      rcases List.mem_cons.mp h with rfl | hmem
      · exact ⟨s, List.mem_cons_self s rest, j, hcs, rfl⟩
      · obtain ⟨s₁, hs₁, j₁, hj₁, hop⟩ :=
          ih (saveArtifactState st j.name j.contents) op hmem
        exact ⟨s₁, List.mem_cons_of_mem s hs₁, j₁, hj₁, hop⟩

/-- Helper: when no spec fails resolution, the resolved batch has exactly
the names of the input batch, in order. -/
theorem resolveAll_names (depRes : JobSpec → Except String JobSpec)
    (hdep : ∀ s s₁, depRes s = .ok s₁ → s₁.name = s.name) :
    ∀ specs : List JobSpec, depErrors depRes specs = [] →
      (resolveAll depRes specs).map (fun s => s.name)
        = specs.map (fun s => s.name) := by
  intro specs
  induction specs with
  | nil => intro _; rfl
  | cons s rest ih =>
    intro h
    cases hs : depRes s with
    | error e =>
      exfalso
      simp [depErrors, List.filterMap_cons, hs] at h
    | ok s₁ =>
      have h₁ : depErrors depRes rest = [] := by
        simpa [depErrors, List.filterMap_cons, hs] using h
      simp only [resolveAll, List.filterMap_cons, hs, Except.toOption,
        List.map_cons, List.cons.injEq]
      exact ⟨hdep s s₁ hs, ih h₁⟩

/-- Helper: the orphan phase deletes a name exactly when it is among the
stored artifact names and is no current spec's name. -/
theorem orphanStep_delete_mem (specs : List JobSpec) (st : ArtifactStore)
    (n : String) :
    StoreOp.deleteArtifact n ∈ (orphanStep specs st).2.1 ↔
      (n ∈ st.map Prod.fst ∧ ¬ (specs.any fun s => s.name = n) = true) := by
  simp [orphanStep]

/-- Helper: the orphan phase logs only deletions. -/
theorem orphanStep_log_delete (specs : List JobSpec) (st : ArtifactStore)
    (op : StoreOp) (h : op ∈ (orphanStep specs st).2.1) :
    ∃ n, op = .deleteArtifact n := by
  simp only [orphanStep, List.mem_map] at h
  obtain ⟨n, _, rfl⟩ := h
  exact ⟨n, rfl⟩

/-- Claim C2: for every successful Sync call — with the documented
collaborator contracts that resolvers preserve spec names and the compiler
names its output after its input spec — a name is deleted from the
ArtifactStore if and only if it is among the stored artifact names and is
not the name of any spec currently in the project's SpecStore; and every
current spec has its artifact saved (via compile + Save) and is never
deleted. -/
theorem sync_success_deletes_exactly_orphans
    (depRes : JobSpec → Except String JobSpec)
    (priRes : List JobSpec → Except String (List JobSpec))
    (compile : JobSpec → Except String Job)
    (meta : Option (List JobSpec → Option String))
    (specStore : List JobSpec) (artifacts : ArtifactStore)
    (st : ArtifactStore) (log : List StoreOp) (ev : List Event)
    (hdep : ∀ s s₁, depRes s = .ok s₁ → s₁.name = s.name)
    (hpri : ∀ l l₁, priRes l = .ok l₁ →
        l₁.map (fun s => s.name) = l.map (fun s => s.name))
    (hcomp : ∀ s j, compile s = .ok j → j.name = s.name)
    (hsync : syncService depRes priRes compile meta specStore artifacts
        = (.ok (), st, log, ev)) :
    (∀ n, StoreOp.deleteArtifact n ∈ log ↔
      (n ∈ artifacts.map Prod.fst ∧ ¬ (specStore.any fun s => s.name = n) = true))
    ∧ (∀ s ∈ specStore,
        (∃ c, StoreOp.saveArtifact s.name c ∈ log)
        ∧ StoreOp.deleteArtifact s.name ∉ log) := by
  by_cases herrs : depErrors depRes specStore = []
  case neg =>
    exfalso
    simp only [syncService] at hsync
    rw [if_neg herrs] at hsync
    simp at hsync
  case pos =>
  simp only [syncService] at hsync
  rw [if_pos herrs] at hsync
  cases hpriv : priRes (resolveAll depRes specStore) with
  | error e =>
    exfalso
    rw [hpriv] at hsync
    simp at hsync
  | ok prioritized =>
  rw [hpriv] at hsync
  dsimp only at hsync
  rw [Prod.mk.injEq] at hsync
  obtain ⟨hres, hsync⟩ := hsync
  rw [Prod.mk.injEq] at hsync
  obtain ⟨hst, hsync⟩ := hsync
  rw [Prod.mk.injEq] at hsync
  obtain ⟨hlog, hev⟩ := hsync
  have hnames : prioritized.map (fun s => s.name)
      = specStore.map (fun s => s.name) :=
    (hpri _ _ hpriv).trans (resolveAll_names depRes hdep specStore herrs)
  have hcerrs : (compileSave compile artifacts prioritized).2.2.2 = [] := by
    by_cases hc : (compileSave compile artifacts prioritized).2.2.2
        ++ (match meta with
            | none => []
            | some pub =>
              match pub prioritized with
              | none => []
              | some e => [e]) = []
    · exact (List.append_eq_nil.mp hc).1
    · rw [if_neg hc] at hres
      cases hres
  have hlogmem : ∀ op : StoreOp, op ∈ log ↔
      (op = StoreOp.openArtifact
        ∨ op ∈ (compileSave compile artifacts prioritized).2.1
        ∨ op ∈ (orphanStep specStore
            (compileSave compile artifacts prioritized).1).2.1) := by
    intro op
    rw [← hlog]
    simp [List.mem_cons, List.mem_append]
  have hprio_name : ∀ p ∈ prioritized, p.name ∈ specStore.map (fun x => x.name) := by
    intro p hp
    rw [← hnames]
    exact List.mem_map.mpr ⟨p, hp, rfl⟩
  constructor
  · intro n
    rw [hlogmem]
    constructor
    · rintro (hop | hop | hop)
      · cases hop
      · obtain ⟨s₁, _, j₁, _, hop⟩ := compileSave_log_saves compile _ _ _ hop
        cases hop
      · rw [orphanStep_delete_mem] at hop
        obtain ⟨hmemn, hany⟩ := hop
        rw [compileSave_mem_names] at hmemn
        rcases hmemn with hmemn | ⟨s₁, hs₁, j₁, hj₁, hn₁⟩
        · exact ⟨hmemn, hany⟩
        · exfalso
          apply hany
          rw [List.any_eq_true]
          have : s₁.name ∈ specStore.map (fun x => x.name) := hprio_name s₁ hs₁
          obtain ⟨s₂, hs₂, hs₂n⟩ := List.mem_map.mp this
          refine ⟨s₂, hs₂, ?_⟩
          rw [hcomp s₁ j₁ hj₁] at hn₁
          simp [hs₂n, hn₁]
    · rintro ⟨hmemn, hany⟩
      refine Or.inr (Or.inr ?_)
      rw [orphanStep_delete_mem]
      refine ⟨?_, hany⟩
      rw [compileSave_mem_names]
      exact Or.inl hmemn
  · intro s hs
    have hsn : s.name ∈ prioritized.map (fun x => x.name) := by
      rw [hnames]
      exact List.mem_map.mpr ⟨s, hs, rfl⟩
    obtain ⟨p, hp, hpn⟩ := List.mem_map.mp hsn
    obtain ⟨j, hj, hjmem⟩ := compileSave_errors_nil compile prioritized artifacts hcerrs p hp
    have hjn : j.name = s.name := (hcomp p j hj).trans hpn
    constructor
    · refine ⟨j.contents, ?_⟩
      rw [hlogmem]
      rw [← hjn]
      exact Or.inr (Or.inl hjmem)
    · intro hdel
      rw [hlogmem] at hdel
      rcases hdel with hop | hop | hop
      · cases hop
      · obtain ⟨s₁, _, j₁, _, hop⟩ := compileSave_log_saves compile _ _ _ hop
        cases hop
      · rw [orphanStep_delete_mem] at hop
        apply hop.2
        rw [List.any_eq_true]
        exact ⟨s, hs, by simp⟩

/-- Witness for C2: the `TestService/Sync` orphan-removal scenario — the
artifact store holds `test` and `test2`, the project holds only `test`:
`test2` is deleted, `test` is saved and not deleted. -/
theorem sync_success_deletes_exactly_orphans_witness :
    StoreOp.deleteArtifact "test2"
      ∈ (syncService (fun s => .ok s)
          (fun l => .ok (l.map fun x =>
            { x with task := { x.task with priority := 10000 } }))
          (fun s => .ok ⟨s.name, "some string"⟩) none
          [{ name := "test" }] [("test", "old"), ("test2", "old2")]).2.2.1
    ∧ StoreOp.deleteArtifact "test"
      ∉ (syncService (fun s => .ok s)
          (fun l => .ok (l.map fun x =>
            { x with task := { x.task with priority := 10000 } }))
          (fun s => .ok ⟨s.name, "some string"⟩) none
          [{ name := "test" }] [("test", "old"), ("test2", "old2")]).2.2.1 := by
  have h := sync_success_deletes_exactly_orphans
    (fun s => .ok s)
    (fun l => .ok (l.map fun x =>
      { x with task := { x.task with priority := 10000 } }))
    (fun s => .ok ⟨s.name, "some string"⟩) none
    [{ name := "test" }] [("test", "old"), ("test2", "old2")]
    [("test", "some string")]
    [StoreOp.openArtifact, StoreOp.saveArtifact "test" "some string",
      StoreOp.deleteArtifact "test2"]
    [Event.jobUpload "test" none, Event.jobRemoteDelete "test2" none]
    (fun s s₁ h => by cases h; rfl)
    (fun l l₁ h => by cases h; simp)
    (fun s j h => by cases h; rfl)
    (by rfl)
  have heq : (syncService (fun s => .ok s)
      (fun l => .ok (l.map fun x =>
        { x with task := { x.task with priority := 10000 } }))
      (fun s => .ok ⟨s.name, "some string"⟩) none
      [{ name := "test" }] [("test", "old"), ("test2", "old2")]).2.2.1
    = [StoreOp.openArtifact, StoreOp.saveArtifact "test" "some string",
        StoreOp.deleteArtifact "test2"] := by rfl
  rw [heq]
  constructor
  · exact (h.1 "test2").mpr ⟨by simp, by simp⟩
  · intro hmem
    have := (h.1 "test").mp hmem
    simp at this

/-! ## Claim C3: priorities are a linear extension of the dependency DAG -/

/-- Helper: a member's successor-depth is below the fold maximum. -/
theorem foldr_max_le_mem (h : String → Nat) :
    ∀ (l : List String) (b : String), b ∈ l →
      h b + 1 ≤ l.foldr (fun d acc => max (h d + 1) acc) 0 := by
  intro l
  induction l with
  | nil => intro b hb; cases hb
  | cons d rest ih =>
    intro b hb
    rcases List.mem_cons.mp hb with rfl | hb₁
    · exact le_max_left _ _
    · exact le_trans (ih b hb₁) (le_max_right _ _)

/-- Helper: the fold maximum only depends on the values on the list. -/
theorem foldr_max_congr (h₁ h₂ : String → Nat) :
    ∀ l : List String, (∀ d ∈ l, h₁ d = h₂ d) →
      l.foldr (fun d acc => max (h₁ d + 1) acc) 0
        = l.foldr (fun d acc => max (h₂ d + 1) acc) 0 := by
  intro l
  induction l with
  | nil => intro _; rfl
  | cons d rest ih =>
    intro h
    simp only [List.foldr_cons]
    rw [h d (List.mem_cons_self d rest), ih (fun x hx => h x (List.mem_cons_of_mem d hx))]

/-- Helper: under a rank certificate for acyclicity, the fuelled depth is
stable once the fuel reaches the node's rank. -/
theorem depthFuel_stab (batch : List PJob) (rank : String → Nat)
    (hrank : ∀ n b, b ∈ depsOf batch n → rank b < rank n) :
    ∀ (r : Nat) (n : String) (f g : Nat), rank n = r → rank n ≤ f → rank n ≤ g →
      depthFuel batch f n = depthFuel batch g n := by
  intro r
  induction r using Nat.strong_induction_on with
  | _ r ih =>
    intro n f g hr hf hg
    have hdeps0 : rank n = 0 → depsOf batch n = [] := by
      intro h0
      cases hd : depsOf batch n with
      | nil => rfl
      | cons b rest =>
        have := hrank n b (by rw [hd]; exact List.mem_cons_self b rest)
        omega
    match f, g with
    | 0, 0 => rfl
    | 0, g + 1 =>
      have h0 : rank n = 0 := by omega
      simp [depthFuel, hdeps0 h0]
    | f + 1, 0 =>
      have h0 : rank n = 0 := by omega
      simp [depthFuel, hdeps0 h0]
    | f + 1, g + 1 =>
      simp only [depthFuel]
      apply foldr_max_congr
      intro d hd
      have hdr : rank d < rank n := hrank n d hd
      exact ih (rank d) (by omega) d f g rfl (by omega) (by omega)

/-- Helper: a dependency edge pushes the depth up by at least one when the
fuel is the batch size and the ranks are bounded by it. -/
theorem depthFuel_edge (batch : List PJob) (rank : String → Nat)
    (hrank : ∀ n b, b ∈ depsOf batch n → rank b < rank n)
    (hbound : ∀ j ∈ batch, rank j.name < batch.length)
    (a b : String) (hb : b ∈ depsOf batch a) :
    depthFuel batch batch.length b + 1 ≤ depthFuel batch batch.length a := by
  obtain ⟨jb, hjb, hjbn⟩ : ∃ j ∈ batch, j.name = b := by
    unfold depsOf at hb
    cases hfind : batch.find? (fun j => j.name == a) with
    | none => rw [hfind] at hb; cases hb
    | some j =>
      rw [hfind] at hb
      have hmem := (List.mem_filter.mp hb).2
      rw [List.any_eq_true] at hmem
      obtain ⟨x, hx, hxe⟩ := hmem
      exact ⟨x, hx, by simpa using hxe⟩
  have hrb : rank b < batch.length := by
    have := hbound jb hjb
    rw [hjbn] at this
    exact this
  cases hlen : batch.length with
  | zero =>
    exfalso
    rw [List.length_eq_zero] at hlen
    rw [hlen] at hjb
    cases hjb
  | succ m =>
    have hstep : depthFuel batch m b + 1 ≤ depthFuel batch (m + 1) a := by
      simp only [depthFuel]
      exact foldr_max_le_mem (depthFuel batch m) (depsOf batch a) b hb
    have hstab : depthFuel batch m b = depthFuel batch (m + 1) b := by
      apply depthFuel_stab batch rank hrank (rank b) b m (m + 1) rfl
      · omega
      · omega
    rw [hstab] at hstep
    exact hstep

/-- Helper: with distinct names, looking up a member by its own name finds
that member. -/
theorem find?_name_eq_self {batch : List PJob}
    (hnodup : (batch.map (fun j => j.name)).Nodup) {j : PJob} (hj : j ∈ batch) :
    batch.find? (fun x => x.name == j.name) = some j := by
  induction batch with
  | nil => cases hj
  | cons x rest ih =>
    rw [List.map_cons, List.nodup_cons] at hnodup
    by_cases hx : x.name = j.name
    · have hxj : x = j := by
        rcases List.mem_cons.mp hj with rfl | hj₁
        · rfl
        · exfalso
          exact hnodup.1 (hx ▸ List.mem_map.mpr ⟨j, hj₁, rfl⟩)
      rw [List.find?_cons]
      simp [hx, hxj]
    · have hj₁ : j ∈ rest := by
        rcases List.mem_cons.mp hj with rfl | hj₁
        · exact absurd rfl hx
        · exact hj₁
      rw [List.find?_cons]
      have : (x.name == j.name) = false := by
        simp [hx]
      simp only [this]
      exact ih hnodup.2 hj₁

/-- Claim C3: for every batch whose intra-batch dependency graph is acyclic
— certified by a rank function decreasing along edges and bounded by the
batch size — and whose names are distinct, the priorities assigned by the
priority resolver satisfy `priority(A) < priority(B)` for every edge
`A → B` (A depends on B), a spec with no dependencies receives priority
10000, and `Resolve` populates each spec's priority slot with exactly that
assignment. -/
theorem priority_resolver_linear_extension (batch : List PJob)
    (rank : String → Nat)
    (hrank : ∀ n b, b ∈ depsOf batch n → rank b < rank n)
    (hbound : ∀ j ∈ batch, rank j.name < batch.length)
    (hnodup : (batch.map (fun j => j.name)).Nodup) :
    (∀ a ∈ batch, ∀ b ∈ depsOf batch a.name,
      priorityOf batch a.name < priorityOf batch b)
    ∧ (∀ j ∈ batch, j.dependencies = [] → priorityOf batch j.name = 10000)
    ∧ (∀ j ∈ priorityResolve batch, j.priority = priorityOf batch j.name) := by
  refine ⟨?_, ?_, ?_⟩
  · intro a ha b hb
    have hedge := depthFuel_edge batch rank hrank hbound a.name b hb
    unfold priorityOf
    omega
  · intro j hj hleaf
    have hdeps : depsOf batch j.name = [] := by
      unfold depsOf
      rw [find?_name_eq_self hnodup hj]
      dsimp only
      rw [hleaf]
      rfl
    have hdepth : depthFuel batch batch.length j.name = 0 := by
      cases hlen : batch.length with
      | zero => rfl
      | succ m => simp [depthFuel, hdeps]
    unfold priorityOf
    rw [hdepth]
    rfl
  · intro j hj
    obtain ⟨x, hx, rfl⟩ := List.mem_map.mp hj
    rfl

/-- The two-job example batch `job-a → job-b` used as the C3 witness. -/
def pjobBatchEx : List PJob :=
  [{ name := "job-a", dependencies := ["job-b"] },
   { name := "job-b", dependencies := [] }]

/-- Witness for C3: in the batch `job-a → job-b` the dependent sits
strictly below its dependency and the leaf receives 10000. -/
theorem priority_resolver_linear_extension_witness :
    priorityOf pjobBatchEx "job-a" < priorityOf pjobBatchEx "job-b"
    ∧ priorityOf pjobBatchEx "job-b" = 10000 := by
  have hrank : ∀ n b, b ∈ depsOf pjobBatchEx n →
      (fun x => if x = "job-a" then 1 else 0) b
        < (fun x => if x = "job-a" then 1 else 0) n := by
    intro n b hb
    unfold depsOf at hb
    cases hfind : pjobBatchEx.find? (fun j => j.name == n) with
    | none => rw [hfind] at hb; cases hb
    | some j =>
      rw [hfind] at hb
      have hj := List.mem_of_find?_eq_some hfind
      have hjp := List.find?_some hfind
      dsimp only at hb
      rcases List.mem_cons.mp hj with rfl | hj₁
      · have hbv : b = "job-b" := by
          simpa [pjobBatchEx] using (List.mem_filter.mp hb).1
        have hnv : n = "job-a" := by
          have := hjp
          simp at this
          exact this.symm
        rw [hbv, hnv]
        simp
      · rcases List.mem_singleton.mp hj₁ with rfl
        simp at hb
  have h := priority_resolver_linear_extension pjobBatchEx
    (fun x => if x = "job-a" then 1 else 0)
    hrank
    (by intro j hj
        rcases List.mem_cons.mp hj with rfl | hj₁
        · simp [pjobBatchEx]
        · rcases List.mem_singleton.mp hj₁ with rfl
          simp [pjobBatchEx])
    (by decide)
  refine ⟨?_, ?_⟩
  · exact h.1 { name := "job-a", dependencies := ["job-b"] } (by decide)
      "job-b" (by decide)
  · exact h.2.1 { name := "job-b", dependencies := [] } (by decide) rfl

/-! ## Claim C4: dataset adapter round trips -/

/-- Helper: the `description` struct field reads back exactly. -/
theorem structsMap_description (m : BQDatasetMetadata) :
    getStringValue (((structsMap m).find? (fun f => f.1 == "description")).map Prod.snd)
      = m.description := by
  unfold structsMap
  by_cases h1 : m.description = "" <;> by_cases h2 : m.defaultTableExpiration = 0 <;>
    by_cases h3 : m.location = "" <;>
      simp [h1, h2, h3, getStringValue, List.find?]

/-- Helper: rounding zero is zero. -/
theorem roundFloat64_zero : roundFloat64 0 = 0 := rfl

/-- Helper: the `table_expiration` struct field reads back as the
float64-rounded expiration. -/
theorem structsMap_expiration (m : BQDatasetMetadata) :
    getNumberValue (((structsMap m).find? (fun f => f.1 == "table_expiration")).map Prod.snd)
      = roundFloat64 m.defaultTableExpiration := by
  unfold structsMap
  by_cases h1 : m.description = "" <;> by_cases h2 : m.defaultTableExpiration = 0 <;>
    by_cases h3 : m.location = "" <;>
      simp [h1, h2, h3, getNumberValue, List.find?, roundFloat64_zero]

/-- Helper: the `location` struct field reads back exactly. -/
theorem structsMap_location (m : BQDatasetMetadata) :
    getStringValue (((structsMap m).find? (fun f => f.1 == "location")).map Prod.snd)
      = m.location := by
  unfold structsMap
  by_cases h1 : m.description = "" <;> by_cases h2 : m.defaultTableExpiration = 0 <;>
    by_cases h3 : m.location = "" <;>
      simp [h1, h2, h3, getStringValue, List.find?]

/-- Helper: Go's `int32` conversion is the identity on the int32 range. -/
theorem toInt32_eq_self (v : Int) (h1 : -2147483648 ≤ v) (h2 : v < 2147483648) :
    toInt32 v = v := by
  unfold toInt32
  dsimp only
  omega

/-- Helper: float64 rounding is the identity on integers of magnitude at
most 2^53. -/
theorem roundFloat64_eq_self (v : Int) (h1 : -9007199254740992 ≤ v)
    (h2 : v ≤ 9007199254740992) : roundFloat64 v = v := by
  have hu : v.natAbs ≤ 9007199254740992 := by omega
  have hN : roundFloat64Nat v.natAbs = v.natAbs := by
    unfold roundFloat64Nat
    rw [if_pos hu]
  unfold roundFloat64
  by_cases hv : v < 0
  · rw [if_pos hv, hN]
    omega
  · rw [if_neg hv, hN]
    omega

/-- Helper: the `int64` cast of an integer-valued double is the identity
within the int64 range. -/
theorem float64ToInt64_eq_self (v : Int) (h1 : -9223372036854775808 ≤ v)
    (h2 : v ≤ 9223372036854775807) : float64ToInt64 v = v := by
  unfold float64ToInt64
  rw [if_pos ⟨h1, h2⟩]

/-- A well-formed resource (per the claim's own definition: name matching
the dataset regex, payload of the `BQDataset` shape) whose version exceeds
the int32 range. -/
def bigVersionResource : ResourceSpec :=
  { version := 2147483648, name := "a.b", typ := "dataset",
    datastore := .bigquery, spec := .bq { project := "a", dataset := "b" } }

/-- A well-formed resource whose table expiration exceeds the
float64-exact integer range 2^53. -/
def bigExpirationResource : ResourceSpec :=
  { version := 1, name := "a.b", typ := "dataset", datastore := .bigquery,
    spec := .bq { project := "a", dataset := "b",
                  metadata := { defaultTableExpiration := 9007199254740993 } } }

/-- Counterexample to C4 as stated: the protobuf round trip of a
well-formed resource breaks on two recognized fields — `ToProtobuf`
truncates the version through Go's `int32` conversion, so version 2^31
comes back as −2^31; and the expiration travels through a float64
`structpb` number, so table_expiration 2^53+1 comes back as 2^53. -/
theorem dataset_proto_roundtrip_truncates_version :
    (toProtobuf bigVersionResource).bind fromProtobuf
      = .ok { version := -2147483648, name := "a.b", typ := "dataset",
              datastore := .bigquery,
              spec := .bq { project := "a", dataset := "b" } }
    ∧ bigVersionResource.version = 2147483648
    ∧ ¬ recognizedEq
        { version := -2147483648, name := "a.b", typ := "dataset",
          datastore := .bigquery, spec := .bq { project := "a", dataset := "b" } }
        bigVersionResource
    ∧ (toProtobuf bigExpirationResource).bind fromProtobuf
      = .ok { version := 1, name := "a.b", typ := "dataset",
              datastore := .bigquery,
              spec := .bq { project := "a", dataset := "b",
                            metadata := { defaultTableExpiration :=
                                            9007199254740992 } } }
    ∧ metadataOf bigExpirationResource = some ("", 9007199254740993, "")
    ∧ ¬ recognizedEq
        { version := 1, name := "a.b", typ := "dataset",
          datastore := .bigquery,
          spec := .bq { project := "a", dataset := "b",
                        metadata := { defaultTableExpiration :=
                                        9007199254740992 } } }
        bigExpirationResource := by
  refine ⟨by decide, rfl, by decide, by decide, rfl, by decide⟩

/-- Claim C4 (amended): for every well-formed resource — name matching the
`project.dataset` regex, payload of the `BQDataset` shape, version within
the int32 range (forced by the wire form's `version:int32`) and table
expiration within the float64-exact integer range 2^53 (forced by the
`structpb` number channel) — the dataset adapter round-trips on the
recognized fields version, name, type, labels, description, location and
table_expiration, through both the YAML and the protobuf wire forms. -/
theorem dataset_adapter_roundtrip (r : ResourceSpec) (d : BQDataset)
    (p ds : String)
    (hspec : r.spec = .bq d)
    (hname : parseDatasetName r.name = some (p, ds))
    (hlo : -2147483648 ≤ r.version) (hhi : r.version < 2147483648)
    (hexplo : -9007199254740992 ≤ d.metadata.defaultTableExpiration)
    (hexphi : d.metadata.defaultTableExpiration ≤ 9007199254740992) :
    (∃ y r₁, toYaml r = .ok y ∧ fromYaml y = .ok r₁ ∧ recognizedEq r₁ r)
    ∧ (∃ b r₂, toProtobuf r = .ok b ∧ fromProtobuf b = .ok r₂ ∧
        recognizedEq r₂ r) := by
  constructor
  · have hty : toYaml r = .ok (.doc
        { version := r.version, name := r.name, typ := r.typ,
          spec := { description := d.metadata.description,
                    tableExpiration := d.metadata.defaultTableExpiration,
                    location := d.metadata.location },
          labels := r.labels }) := by
      simp [toYaml, hspec]
    have hfy : fromYaml (.doc
        { version := r.version, name := r.name, typ := r.typ,
          spec := { description := d.metadata.description,
                    tableExpiration := d.metadata.defaultTableExpiration,
                    location := d.metadata.location },
          labels := r.labels })
      = .ok { version := r.version, name := r.name, typ := r.typ,
              datastore := .bigquery,
              spec := .bq { project := p, dataset := ds,
                            metadata := { description := d.metadata.description,
                                          defaultTableExpiration :=
                                            d.metadata.defaultTableExpiration,
                                          labels := [],
                                          location := d.metadata.location } },
              assets := [], labels := r.labels } := by
      simp only [fromYaml]
      rw [hname]
    refine ⟨_, _, hty, hfy, ?_⟩
    simp [recognizedEq, metadataOf, hspec]
  · have hto : toProtobuf r = .ok (.msg
        { version := toInt32 r.version, name := r.name,
          datastore := "bigquery", typ := r.typ,
          spec := some (structsMap d.metadata),
          assets := r.assets, labels := r.labels }) := by
      simp [toProtobuf, hspec]
    have hfrom : fromProtobuf (.msg
        { version := toInt32 r.version, name := r.name,
          datastore := "bigquery", typ := r.typ,
          spec := some (structsMap d.metadata),
          assets := r.assets, labels := r.labels })
      = .ok { version := toInt32 r.version, name := r.name, typ := r.typ,
              datastore := .bigquery,
              spec := .bq { project := p, dataset := ds,
                            metadata := { description := d.metadata.description,
                                          defaultTableExpiration :=
                                            d.metadata.defaultTableExpiration,
                                          labels := [],
                                          location := d.metadata.location } },
              assets := r.assets, labels := r.labels } := by
      simp only [fromProtobuf]
      rw [hname]
      dsimp only
      rw [structsMap_description, structsMap_expiration, structsMap_location,
        roundFloat64_eq_self _ hexplo hexphi,
        float64ToInt64_eq_self _ (by omega) (by omega)]
    refine ⟨_, _, hto, hfrom, ?_⟩
    simp [recognizedEq, metadataOf, hspec, toInt32_eq_self r.version hlo hhi]

/-- A fully populated well-formed resource used as the C4 witness. -/
def roundtripResourceEx : ResourceSpec :=
  { version := 3, name := "proj-1.data_set", typ := "dataset",
    datastore := .bigquery,
    spec := .bq { project := "proj-1", dataset := "data_set",
                  metadata := { description := "desc",
                                defaultTableExpiration := 86400,
                                labels := [("k", "v")], location := "US" } },
    assets := [("q", "select 1")], labels := [("owner", "team")] }

/-- Witness for C4 (amended): the round trip holds for a fully populated
well-formed dataset resource. -/
theorem dataset_adapter_roundtrip_witness :
    (∃ y r₁, toYaml roundtripResourceEx = .ok y ∧ fromYaml y = .ok r₁ ∧
      recognizedEq r₁ roundtripResourceEx)
    ∧ (∃ b r₂, toProtobuf roundtripResourceEx = .ok b ∧
        fromProtobuf b = .ok r₂ ∧ recognizedEq r₂ roundtripResourceEx) :=
  dataset_adapter_roundtrip roundtripResourceEx
    { project := "proj-1", dataset := "data_set",
      metadata := { description := "desc", defaultTableExpiration := 86400,
                    labels := [("k", "v")], location := "US" } }
    "proj-1" "data_set" (by rfl) (by decide) (by decide) (by decide)
    (by decide) (by decide)
